import Mathlib

/-!
Verification of the `shorts-digest-next` transcript server against its
specification.  The development shallowly embeds the two Flask applications
(`server.py`, the audio-transcription server, and `serve.py`, the native
transcript server): pure Python functions become Lean functions, the
stateful pieces (cache directory, rate-limit buckets, temporary files)
become explicit state passing, and every external collaborator (the
YouTube transcript library, the speech-to-text endpoint, the filesystem)
is an explicit oracle parameter recording the outcome of each call.
-/

namespace ShortsDigest

/-! ## Content-addressed cache (`server.py` lines 29-55)

`read_cache` / `write_cache` operate on one JSON file per key.  We model
the cache directory as a map from keys to a `ReadResult`: the file can be
absent (`os.path.exists` false), unreadable/unparsable (any exception in
`open`/`json.load`, which the `try`/`except` swallows), or hold a parsed
entry.  A cache entry is a `cached` flag plus the remaining payload
fields, which the cache treats opaquely (type parameter `α`). -/

structure CacheEntry (α : Type) where
  cached : Bool
  data : α
  deriving DecidableEq, Repr

inductive ReadResult (α : Type) where
  /-- `os.path.exists(cache_path)` is false: no file for this key. -/
  | missing
  /-- opening or JSON-parsing the file raised: the `except` logs and falls
      through to `return None`. -/
  | failed
  /-- the file parsed to entry `e`. -/
  | found (e : CacheEntry α)
  deriving DecidableEq, Repr

/-- The cache directory: one slot per key (`server.py` line 27,
`CACHE_DIR/<key>.json`). -/
def CacheFs (α : Type) := String → ReadResult α

/-- `read_cache` (`server.py` lines 29-41): on a parsed entry, force
`data["cached"] = True` and return it; on a missing file or any read
failure return `None`. -/
def read_cache {α : Type} (fs : CacheFs α) (key : String) :
    Option (CacheEntry α) :=
  match fs key with
  | .missing => none
  | .failed => none
  | .found e => some { e with cached := true }

/-- `write_cache` (`server.py` lines 43-55): serialize the payload with
`cached` forced to `False`, write a sibling `.tmp` file and `os.replace`
it into place.  `writeOk` records whether any step raised; on failure the
`except` logs and the directory is left unchanged (the function still
returns normally — in the model, it is total). -/
def write_cache {α : Type} (fs : CacheFs α) (writeOk : Bool) (key : String)
    (payload : CacheEntry α) : CacheFs α :=
  if writeOk then
    fun k => if k = key then .found { payload with cached := false } else fs k
  else fs

/-! ## Rate limiter (`serve.py` lines 53-70)

`_before_request` keeps, per client IP, a list of request timestamps.
Timestamps are modelled as rationals.  The `while bucket and bucket[0] <
window_start: bucket.pop(0)` loop removes the leading expired entries,
i.e. `List.dropWhile`.  The step returns whether the request is admitted
and the new bucket. -/

/-- One rate-limiter step for one client bucket: prune leading expired
timestamps, reject with 429 when the pruned bucket already holds `limit`
entries, otherwise append `now` and admit.  When the configured limit is
not positive the whole check is skipped (`if RATE_LIMIT_PER_MINUTE > 0`). -/
def rate_limit_step (limit : ℕ) (bucket : List ℚ) (now : ℚ) :
    Bool × List ℚ :=
  if limit = 0 then (true, bucket)
  else
    let kept := bucket.dropWhile (fun t => t < now - 60)
    if limit ≤ kept.length then (false, kept)
    else (true, kept ++ [now])

/-! ## `/transcribe` handler dispatch and upload branch (`server.py` 76-206)

The handler's control flow depends on request shape plus the outcome of
the cache lookup and the remote transcription call; we record those in
oracle structures.  For the upload branch we additionally track whether
the `NamedTemporaryFile(delete=False)` created at line 145 still exists
when the handler finishes. -/

structure TranscribeRequest where
  /-- `request.is_json`: the Content-Type announces JSON.  A multipart
      upload has Content-Type `multipart/form-data`, so this is `false`. -/
  isJson : Bool
  /-- `request.get_json()` returned a truthy object. -/
  jsonTruthy : Bool
  /-- `'youtube_url' in json_data`. -/
  hasYoutubeUrl : Bool
  /-- `request.files['audio']` when present: the uploaded file's name. -/
  audioFile : Option String
  deriving DecidableEq, Repr

inductive TranscribeOutcome where
  /-- an early `return jsonify({...}), 400`. -/
  | badRequest (msg : String)
  /-- a 200 JSON response; `cached` is the in-response flag and `source`
      the `source` field. -/
  | response (cached : Bool) (source : String)
  /-- a 500 from the surrounding `except` handlers. -/
  | serverError
  deriving DecidableEq, Repr

/-- Oracle for the upload branch (`server.py` lines 134-179). -/
structure UploadEnv where
  /-- `read_cache(file_cache_key)` returned an entry. -/
  cacheHit : Bool
  /-- the `client.audio.transcriptions.create` call returned (rather than
      raised). -/
  transcriptionOk : Bool
  deriving DecidableEq, Repr

/-- The upload branch, entered with the temporary file already created
(`NamedTemporaryFile(delete=False)`, line 145).  Returns the outcome and
whether the temporary file still exists afterwards.  On a cache hit the
handler unlinks the file and returns the cached entry; on a successful
transcription it unlinks and returns a fresh entry; when the
transcription call raises, the exception propagates to the outer
`except` (line 198) and no `os.unlink` runs. -/
def upload_branch (env : UploadEnv) : TranscribeOutcome × Bool :=
  if env.cacheHit then (.response true "file_upload", false)
  else if env.transcriptionOk then (.response false "file_upload", false)
  else (.serverError, true)

/-- `transcribe_audio` dispatch (`server.py` lines 76-185).
`youtubeOutcome` abstracts the whole YouTube-URL branch (lines 94-131),
which never creates a named temporary file.  The second component is
whether an upload temporary file remains after the request. -/
def transcribe_audio (r : TranscribeRequest) (youtubeOutcome : TranscribeOutcome)
    (env : UploadEnv) : TranscribeOutcome × Bool :=
  if ¬ r.isJson then (.badRequest "Request must be JSON", false)
  else if ¬ r.jsonTruthy then (.badRequest "No JSON data provided", false)
  else if r.hasYoutubeUrl then (youtubeOutcome, false)
  else
    match r.audioFile with
    | some fn =>
        if fn = "" then (.badRequest "No file selected", false)
        else upload_branch env
    | none =>
        (.badRequest
          "Please provide either a 'youtube_url' in JSON or upload an 'audio' file",
          false)

/-! ## Transcript fetcher fallback chain (`serve.py` lines 173-272)

Every call into `youtube_transcript_api` is an external effect; we record
each call's outcome in an oracle.  A `Track` is one entry of the
enumerated transcript list: `fetchResult` is the outcome of `t.fetch()`
(`none` when it raises), `is_translatable` mirrors
`getattr(t, "is_translatable", False)`, and `translateFetch` is the
outcome of `t.translate(preferred).fetch()`.  Transcript payloads are
opaque (type parameter `α`). -/

structure Track (α : Type) where
  fetchResult : Option α
  is_translatable : Bool
  translateFetch : Option α
  deriving DecidableEq, Repr

structure TranscriptEnv (α : Type) where
  /-- `api.fetch(video_id)` (line 205). -/
  apiFetch : Option α
  /-- `YouTubeTranscriptApi.get_transcript(video_id, languages=languages)`
      (line 210). -/
  getTranscript : Option α
  /-- `api.list(video_id)` / `list_transcripts(video_id)` (lines 216-223);
      `none` when both raise. -/
  listTracks : Option (List (Track α))
  /-- `transcript_list.find_transcript(languages)` (line 228). -/
  findTranscript : Option (Track α)
  /-- `transcript_list.find_manually_created_transcript(languages)`
      (line 235). -/
  findManual : Option (Track α)
  /-- `transcript_list.find_generated_transcript(languages)` (line 241). -/
  findGenerated : Option (Track α)
  deriving Repr

/-- The only exception `fetch_transcript` itself raises:
`RuntimeError("No transcript available for the requested video.")`
(line 272), named `NotAvailable` in the specification. -/
inductive FetchError where
  | notAvailable
  deriving DecidableEq, Repr

/-- `fetch_transcript` (`serve.py` lines 173-272): each `try`/`except
Exception: pass` block becomes a match on the corresponding oracle field,
falling through to the next strategy on `none`. -/
def fetch_transcript {α : Type} (env : TranscriptEnv α) : Except FetchError α :=
  match env.apiFetch with
  | some s => .ok s
  | none =>
  match env.getTranscript with
  | some s => .ok s
  | none =>
  match env.listTracks with
  | none => .error .notAvailable
  | some tracks =>
  match env.findTranscript.bind Track.fetchResult with
  | some s => .ok s
  | none =>
  match env.findManual.bind Track.fetchResult with
  | some s => .ok s
  | none =>
  match env.findGenerated.bind Track.fetchResult with
  | some s => .ok s
  | none =>
  match tracks.findSome? Track.fetchResult with
  | some s => .ok s
  | none =>
  match tracks.findSome?
      (fun t => if t.is_translatable then t.translateFetch else none) with
  | some s => .ok s
  | none => .error .notAvailable

/-- The fetch strategies in the priority order of the specification:
direct retrieval (the two direct calls), then over the enumerated track
list (a) exact language match, (b) manually created, (c) generated,
(d) first fetchable track, (e) first translatable track machine-translated
to the first preferred language.  When enumerating the track list itself
fails, the list-based strategies are all unavailable. -/
def fetchStrategies {α : Type} (env : TranscriptEnv α) : List (Option α) :=
  [env.apiFetch, env.getTranscript] ++
  match env.listTracks with
  | none => []
  | some tracks =>
    [env.findTranscript.bind Track.fetchResult,
     env.findManual.bind Track.fetchResult,
     env.findGenerated.bind Track.fetchResult,
     tracks.findSome? Track.fetchResult,
     tracks.findSome?
       (fun t => if t.is_translatable then t.translateFetch else none)]

/-! ## SRT/VTT timestamp rendering (`serve.py` lines 111-126)

Seconds are modelled as exact rationals; on the dyadic inputs considered
in the theorems Python's binary floating point represents the values and
the scaled products exactly, so the rational model agrees with the float
computation there.  `int(seconds)` truncates toward zero; Python's
built-in `round` rounds half to even. -/

/-- Python `int()` on a number: truncation toward zero. -/
def intTrunc (q : ℚ) : ℤ := q.num.tdiv q.den

/-- Python built-in `round(x)` to an integer: nearest integer, ties to
even. -/
def pyRound (q : ℚ) : ℤ :=
  if q - ⌊q⌋ < 1/2 then ⌊q⌋
  else if 1/2 < q - ⌊q⌋ then ⌊q⌋ + 1
  else if ⌊q⌋ % 2 = 0 then ⌊q⌋ else ⌊q⌋ + 1

/-- `f"{n:0wd}"` for the `ℕ` magnitude: decimal digits left-padded with
zeros to width `w`. -/
def padDigits (w : ℕ) (m : ℕ) : String :=
  let s := Nat.repr m
  String.mk (List.replicate (w - s.length) '0') ++ s

/-- `f"{n:0wd}"`: zero-padded fixed-width decimal (a minus sign counts
toward the width, as in Python). -/
def padNum (w : ℕ) (n : ℤ) : String :=
  if n < 0 then "-" ++ padDigits (w - 1) n.natAbs else padDigits w n.natAbs

/-- `seconds_to_srt_time` (`serve.py` lines 111-117): `ms` is
`int(round((seconds - int(seconds)) * 1000))`, `total_seconds` is
`int(seconds)`, and `h`/`m`/`s` come from `//` and `%` (floor division
and floor modulus, `Int.fdiv`/`Int.fmod`). -/
def seconds_to_srt_time (seconds : ℚ) : String :=
  padNum 2 ((intTrunc seconds).fdiv 3600) ++ ":" ++
  padNum 2 (((intTrunc seconds).fmod 3600).fdiv 60) ++ ":" ++
  padNum 2 ((intTrunc seconds).fmod 60) ++ "," ++
  padNum 3 (pyRound ((seconds - intTrunc seconds) * 1000))

/-- `seconds_to_vtt_time` (`serve.py` lines 120-126): identical except the
millisecond separator is `.` instead of `,`. -/
def seconds_to_vtt_time (seconds : ℚ) : String :=
  padNum 2 ((intTrunc seconds).fdiv 3600) ++ ":" ++
  padNum 2 (((intTrunc seconds).fmod 3600).fdiv 60) ++ ":" ++
  padNum 2 ((intTrunc seconds).fmod 60) ++ "." ++
  padNum 3 (pyRound ((seconds - intTrunc seconds) * 1000))

/-- The rounding rule the specification claims: round-half-up,
`⌊x + 1/2⌋`.  Stated from the spec's words for comparison with the
code's `pyRound`. -/
def specHalfUp (q : ℚ) : ℤ := ⌊q + 1/2⌋

/-! ## SHA-256 and cache keys (`server.py` lines 57-66)

`hashlib.sha256` modelled bit-for-bit over byte lists (bytes are `ℕ`
values below 256, 32-bit words are `ℕ` reduced mod `2^32`).  Strings are
encoded to bytes with UTF-8 as `str.encode("utf-8")` does. -/

/-- 2^32, the 32-bit word modulus. -/
def u32mod : ℕ := 4294967296

/-- Right rotation of a 32-bit word. -/
def rotr (n x : ℕ) : ℕ := ((x >>> n) ||| (x <<< (32 - n))) % u32mod

def shaCh (x y z : ℕ) : ℕ := (x &&& y) ^^^ ((x ^^^ 4294967295) &&& z)

def shaMaj (x y z : ℕ) : ℕ := (x &&& y) ^^^ (x &&& z) ^^^ (y &&& z)

def bigSigma0 (x : ℕ) : ℕ := rotr 2 x ^^^ rotr 13 x ^^^ rotr 22 x

def bigSigma1 (x : ℕ) : ℕ := rotr 6 x ^^^ rotr 11 x ^^^ rotr 25 x

def smallSigma0 (x : ℕ) : ℕ := rotr 7 x ^^^ rotr 18 x ^^^ (x >>> 3)

def smallSigma1 (x : ℕ) : ℕ := rotr 17 x ^^^ rotr 19 x ^^^ (x >>> 10)

/-- The 64 SHA-256 round constants (FIPS 180-4, in decimal). -/
def shaK : List ℕ :=
  [1116352408, 1899447441, 3049323471, 3921009573, 961987163,
   1508970993, 2453635748, 2870763221, 3624381080, 310598401,
   607225278, 1426881987, 1925078388, 2162078206, 2614888103,
   3248222580, 3835390401, 4022224774, 264347078, 604807628,
   770255983, 1249150122, 1555081692, 1996064986, 2554220882,
   2821834349, 2952996808, 3210313671, 3336571891, 3584528711,
   113926993, 338241895, 666307205, 773529912, 1294757372,
   1396182291, 1695183700, 1986661051, 2177026350, 2456956037,
   2730485921, 2820302411, 3259730800, 3345764771, 3516065817,
   3600352804, 4094571909, 275423344, 430227734, 506948616,
   659060556, 883997877, 958139571, 1322822218, 1537002063,
   1747873779, 1955562222, 2024104815, 2227730452, 2361852424,
   2428436474, 2756734187, 3204031479, 3329325298]

/-- The SHA-256 initial hash value (FIPS 180-4, in decimal). -/
def shaH0 : List ℕ :=
  [1779033703, 3144134277, 1013904242,
   2773480762, 1359893119, 2600822924,
   528734635, 1541459225]

/-- `n` bytes of `v`, big-endian. -/
def toBytesBE : ℕ → ℕ → List ℕ
  | 0, _ => []
  | k + 1, v => ((v >>> (8 * k)) % 256) :: toBytesBE k v

/-- SHA-256 message padding: a `0x80` byte, zeros, and the 8-byte
big-endian bit length, to a multiple of 64 bytes. -/
def shaPad (msg : List ℕ) : List ℕ :=
  let L := msg.length
  let zeros := (119 - L % 64) % 64
  msg ++ 128 :: List.replicate zeros 0 ++ toBytesBE 8 (8 * L)

/-- Big-endian 4-byte groups to 32-bit words. -/
def bytesToWords : List ℕ → List ℕ
  | b0 :: b1 :: b2 :: b3 :: rest =>
      (((b0 * 256 + b1) * 256 + b2) * 256 + b3) :: bytesToWords rest
  | _ => []

/-- Split a word list into 16-word blocks (fuel-driven so that the
definition reduces definitionally). -/
def chunks16 : ℕ → List ℕ → List (List ℕ)
  | 0, _ => []
  | _, [] => []
  | fuel + 1, l => l.take 16 :: chunks16 fuel (l.drop 16)

/-- Message-schedule extension: `window` holds the previous 16 words
(`w[i-16] .. w[i-1]`); each step appends
`σ1(w[i-2]) + w[i-7] + σ0(w[i-15]) + w[i-16]  (mod 2^32)`. -/
def scheduleAux : ℕ → List ℕ → List ℕ → List ℕ
  | 0, _, acc => acc
  | k + 1, window, acc =>
      let w := (window.getD 0 0 + smallSigma0 (window.getD 1 0) +
                window.getD 9 0 + smallSigma1 (window.getD 14 0)) % u32mod
      scheduleAux k (window.drop 1 ++ [w]) (acc ++ [w])

/-- Extend a 16-word block to the full 64-word schedule. -/
def buildSchedule (block : List ℕ) : List ℕ := scheduleAux 48 block block

structure SHAState where
  a : ℕ
  b : ℕ
  c : ℕ
  d : ℕ
  e : ℕ
  f : ℕ
  g : ℕ
  h : ℕ
  deriving Repr

/-- One SHA-256 compression round. -/
def compressStep (s : SHAState) (k w : ℕ) : SHAState :=
  let t1 := (s.h + bigSigma1 s.e + shaCh s.e s.f s.g + k + w) % u32mod
  let t2 := (bigSigma0 s.a + shaMaj s.a s.b s.c) % u32mod
  ⟨(t1 + t2) % u32mod, s.a, s.b, s.c, (s.d + t1) % u32mod, s.e, s.f, s.g⟩

/-- Process one 16-word block, updating the 8-word hash value. -/
def processBlock (hs : List ℕ) (block : List ℕ) : List ℕ :=
  let ws := buildSchedule block
  let init : SHAState :=
    ⟨hs.getD 0 0, hs.getD 1 0, hs.getD 2 0, hs.getD 3 0,
     hs.getD 4 0, hs.getD 5 0, hs.getD 6 0, hs.getD 7 0⟩
  let fin := (shaK.zip ws).foldl (fun s kw => compressStep s kw.1 kw.2) init
  [(hs.getD 0 0 + fin.a) % u32mod, (hs.getD 1 0 + fin.b) % u32mod,
   (hs.getD 2 0 + fin.c) % u32mod, (hs.getD 3 0 + fin.d) % u32mod,
   (hs.getD 4 0 + fin.e) % u32mod, (hs.getD 5 0 + fin.f) % u32mod,
   (hs.getD 6 0 + fin.g) % u32mod, (hs.getD 7 0 + fin.h) % u32mod]

/-- SHA-256 of a byte list, as the 8-word hash value. -/
def sha256Words (msg : List ℕ) : List ℕ :=
  let ws := bytesToWords (shaPad msg)
  (chunks16 ws.length ws).foldl processBlock shaH0

def hexDigit (n : ℕ) : Char :=
  if n < 10 then Char.ofNat (48 + n) else Char.ofNat (87 + n)

/-- A 32-bit word as 8 lowercase hex digits. -/
def wordToHex (w : ℕ) : List Char :=
  [7, 6, 5, 4, 3, 2, 1, 0].map fun i => hexDigit ((w >>> (4 * i)) % 16)

/-- `hashlib.sha256(...).hexdigest()`: the 64-character lowercase hex
digest. -/
def sha256hex (msg : List ℕ) : String :=
  String.mk ((sha256Words msg).map wordToHex).flatten

/-- UTF-8 encoding of one character (`str.encode("utf-8")`). -/
def utf8Char (c : Char) : List ℕ :=
  let n := c.toNat
  if n < 0x80 then [n]
  else if n < 0x800 then
    [0xC0 ||| (n >>> 6), 0x80 ||| (n &&& 0x3F)]
  else if n < 0x10000 then
    [0xE0 ||| (n >>> 12), 0x80 ||| ((n >>> 6) &&& 0x3F), 0x80 ||| (n &&& 0x3F)]
  else
    [0xF0 ||| (n >>> 18), 0x80 ||| ((n >>> 12) &&& 0x3F),
     0x80 ||| ((n >>> 6) &&& 0x3F), 0x80 ||| (n &&& 0x3F)]

/-- UTF-8 encoding of a string. -/
def utf8Encode (s : String) : List ℕ := (s.data.map utf8Char).flatten

/-- `MODEL = "gpt-4o-mini-transcribe"` (`server.py` line 17). -/
def MODEL : String := "gpt-4o-mini-transcribe"

/-- The namespaced pre-image string hashed for a YouTube-URL cache key
(`server.py` line 58).  The source reads the module constant `MODEL`;
it is passed explicitly here so that theorems can speak about varying
the model identifier. -/
def youtube_key_string (model url : String) : String :=
  "youtube|" ++ model ++ "|" ++ url

/-- `build_youtube_cache_key` (`server.py` lines 57-58). -/
def build_youtube_cache_key (model url : String) : String :=
  sha256hex (utf8Encode (youtube_key_string model url))

/-- The byte stream hashed for a file cache key (`server.py` lines
60-66): the UTF-8 bytes of `"file|<model>|"` followed by the file's
bytes.  The source feeds the file to the hash in 1 MiB chunks; hashing
the concatenation is the same stream. -/
def file_key_bytes (model : String) (fileBytes : List ℕ) : List ℕ :=
  utf8Encode ("file|" ++ model ++ "|") ++ fileBytes

/-- `build_file_cache_key` (`server.py` lines 60-66). -/
def build_file_cache_key (model : String) (fileBytes : List ℕ) : String :=
  sha256hex (file_key_bytes model fileBytes)

/-! ## URL parsing and `extract_video_id` (`serve.py` lines 85-108)

`extract_video_id` relies on CPython's `urllib.parse.urlparse` /
`parse_qs`; the relevant subset of those library routines is modelled
below over `List Char`.  Percent-decoding of bytes ≥ 0x80 is modelled as
a single character of that code point (CPython decodes UTF-8); the
theorems only use percent-free inputs, where the two agree. -/

/-- Python's substring test `pat in s`. -/
def containsSeq (pat : List Char) : List Char → Bool
  | [] => pat.isEmpty
  | c :: t => pat.isPrefixOf (c :: t) || containsSeq pat t

/-- Split at the first occurrence of `sep`: the part before it, and
`some` remainder when `sep` occurs.  (Python `str.partition` /
`str.split(sep, 1)` / `str.find`.) -/
def splitAtFirst (sep : Char) : List Char → List Char × Option (List Char)
  | [] => ([], none)
  | c :: t =>
    if c = sep then ([], some t)
    else
      let r := splitAtFirst sep t
      (c :: r.1, r.2)

/-- Python `str.split(sep)` (single-character separator, empties kept). -/
def splitOnChar (sep : Char) : List Char → List (List Char)
  | [] => [[]]
  | c :: t =>
    if c = sep then [] :: splitOnChar sep t
    else
      match splitOnChar sep t with
      | [] => [[c]]
      | h :: r => (c :: h) :: r

/-- ASCII lowercasing (all hosts involved are ASCII). -/
def lowerChar (c : Char) : Char :=
  if 'A' ≤ c ∧ c ≤ 'Z' then Char.ofNat (c.toNat + 32) else c

/-- `urlsplit` input sanitisation: strip leading C0-control-or-space
characters, then delete every tab, CR and LF. -/
def sanitizeUrl (l : List Char) : List Char :=
  (l.dropWhile (fun c => c.toNat ≤ 32)).filter
    (fun c => !(c == '\t' || c == '\r' || c == '\n'))

def isAsciiAlpha (c : Char) : Bool :=
  ('a' ≤ c && c ≤ 'z') || ('A' ≤ c && c ≤ 'Z')

/-- Membership in `urllib.parse.scheme_chars`. -/
def isSchemeChar (c : Char) : Bool :=
  isAsciiAlpha c || ('0' ≤ c && c ≤ '9') || c == '+' || c == '-' || c == '.'

/-- Scheme splitting in `urlsplit`: at the first `:`, provided the part
before it is nonempty, starts with an ASCII letter, and consists of
scheme characters; otherwise no split.  Returns (scheme lowercased,
remainder). -/
def splitScheme (l : List Char) : List Char × List Char :=
  match splitAtFirst ':' l with
  | (before, some after) =>
    match before with
    | [] => ([], l)
    | c :: cs =>
      if isAsciiAlpha c && (c :: cs).all isSchemeChar then
        ((c :: cs).map lowerChar, after)
      else ([], l)
  | (_, none) => ([], l)

/-- Netloc splitting: when the remainder starts with `//`, the netloc
runs to the next `/`, `?` or `#`. -/
def splitNetloc : List Char → List Char × List Char
  | '/' :: '/' :: t =>
    (t.takeWhile (fun c => !(c == '/' || c == '?' || c == '#')),
     t.dropWhile (fun c => !(c == '/' || c == '?' || c == '#')))
  | l => ([], l)

structure UrlParts where
  scheme : List Char
  netloc : List Char
  path : List Char
  query : List Char
  deriving DecidableEq, Repr

/-- `_splitparams`: drop a `;params` suffix from the last path segment
(`urlparse` on top of `urlsplit`). -/
def splitParams (path : List Char) : List Char :=
  if '/' ∈ path then
    let seg := (path.reverse.takeWhile (fun c => !(c == '/'))).reverse
    let pre := path.take (path.length - seg.length)
    pre ++ (splitAtFirst ';' seg).1
  else (splitAtFirst ';' path).1

/-- `urllib.parse.urlparse`: sanitise, split scheme, netloc, fragment,
query, params.  The only exception it can raise on a `str` argument is
`ValueError("Invalid IPv6 URL")`, when the netloc holds an unmatched
bracket. -/
def pyUrlparse (l : List Char) : Except Unit UrlParts :=
  let rest := (splitScheme (sanitizeUrl l)).2
  let netloc := (splitNetloc rest).1
  if ('[' ∈ netloc ∧ ']' ∉ netloc) ∨ (']' ∈ netloc ∧ '[' ∉ netloc) then
    .error ()
  else
    let beforeFrag := (splitAtFirst '#' (splitNetloc rest).2).1
    let query := match (splitAtFirst '?' beforeFrag).2 with
      | some q => q
      | none => []
    .ok ⟨(splitScheme (sanitizeUrl l)).1, netloc,
         splitParams (splitAtFirst '?' beforeFrag).1, query⟩

/-- The `hostname` property of a parse result: the netloc after the last
`@`, then either the bracketed IPv6 host or everything before the port
colon, lowercased.  (Empty hostname is `None` in Python; the caller turns
it into `""`, so the empty list stands for both.) -/
def hostnameOf (netloc : List Char) : List Char :=
  let hostinfo := (netloc.reverse.takeWhile (fun c => !(c == '@'))).reverse
  let host := match splitAtFirst '[' hostinfo with
    | (_, some bracketed) => (splitAtFirst ']' bracketed).1
    | (before, none) => (splitAtFirst ':' before).1
  host.map lowerChar

def isHexDigitChar (c : Char) : Bool :=
  ('0' ≤ c && c ≤ '9') || ('a' ≤ c && c ≤ 'f') || ('A' ≤ c && c ≤ 'F')

def hexVal (c : Char) : ℕ :=
  if '0' ≤ c ∧ c ≤ '9' then c.toNat - 48
  else if 'a' ≤ c ∧ c ≤ 'f' then c.toNat - 87
  else c.toNat - 55

/-- `urllib.parse.unquote_plus` on query components: `+` to space,
`%XX` with valid hex decoded, invalid escapes kept literally. -/
def unquotePlusAux : ℕ → List Char → List Char
  | 0, l => l
  | _, [] => []
  | fuel + 1, c :: t =>
    if c = '+' then ' ' :: unquotePlusAux fuel t
    else if c = '%' then
      match t with
      | h1 :: h2 :: t2 =>
        if isHexDigitChar h1 && isHexDigitChar h2 then
          Char.ofNat (16 * hexVal h1 + hexVal h2) :: unquotePlusAux fuel t2
        else '%' :: unquotePlusAux fuel t
      | _ => '%' :: unquotePlusAux fuel t
    else c :: unquotePlusAux fuel t

/-- Fuel-driven wrapper (every step consumes at least one character, so
`l.length` units of fuel always suffice and the `0` case is never the
final answer on a nonempty list). -/
def unquotePlus (l : List Char) : List Char := unquotePlusAux l.length l

/-- `parse_qs` with default arguments: split on `&`, skip empty chunks,
skip chunks without `=`, split names and values at the first `=`, skip
blank values, unquote both. -/
def parse_qs_pairs (qs : List Char) : List (List Char × List Char) :=
  (splitOnChar '&' qs).filterMap fun nv =>
    if nv = [] then none
    else match splitAtFirst '=' nv with
      | (_, none) => none
      | (name, some value) =>
        if value = [] then none
        else some (unquotePlus name, unquotePlus value)

/-- `parse_qs(query).get("v", [None])[0]`: the first non-blank `v`
value, if any. -/
def qsFirstV (qs : List Char) : Option (List Char) :=
  ((parse_qs_pairs qs).find? (fun p => p.1 == ['v'])).map (fun p => p.2)

/-- `extract_video_id` (`serve.py` lines 85-108). -/
def extract_video_id (url_or_id : String) : Option String :=
  let l := url_or_id.data
  if l = [] then none
  else if ¬ (containsSeq "://".data l) ∧ ¬ (l.contains '/') ∧ 8 ≤ l.length then
    some url_or_id
  else
    match pyUrlparse l with
    | .error _ => none
    | .ok u =>
      let host := hostnameOf u.netloc
      if containsSeq "youtu.be".data host then
        let p := u.path.dropWhile (fun c => c == '/')
        if p = [] then none else some (String.mk p)
      else if containsSeq "youtube.com".data host then
        if "/watch".data.isPrefixOf u.path then
          (qsFirstV u.query).map String.mk
        else if "/shorts/".data.isPrefixOf u.path then
          match splitOnChar '/' u.path with
          | _ :: _ :: x :: _ => some (String.mk x)
          | _ => none
        else none
      else none

/-! ## General list lemmas used by the theorems -/

theorem splitAtFirst_not_mem {sep : Char} : ∀ {l : List Char}, sep ∉ l →
    splitAtFirst sep l = (l, none)
  | [], _ => rfl
  | c :: t, h => by
    have hc : c ≠ sep := fun hc => h (hc ▸ List.mem_cons_self c t)
    have ht : sep ∉ t := fun ht => h (List.mem_cons_of_mem c ht)
    simp [splitAtFirst, hc, splitAtFirst_not_mem ht]

theorem splitAtFirst_append_not_mem {sep : Char} :
    ∀ {l1 : List Char} (l2 : List Char), sep ∉ l1 →
      splitAtFirst sep (l1 ++ l2) =
        (l1 ++ (splitAtFirst sep l2).1, (splitAtFirst sep l2).2)
  | [], l2, _ => rfl
  | c :: t, l2, h => by
    have hc : c ≠ sep := fun hc => h (hc ▸ List.mem_cons_self c t)
    have ht : sep ∉ t := fun ht => h (List.mem_cons_of_mem c ht)
    simp [splitAtFirst, hc, splitAtFirst_append_not_mem l2 ht]

theorem splitOnChar_not_mem {sep : Char} : ∀ {l : List Char}, sep ∉ l →
    splitOnChar sep l = [l]
  | [], _ => rfl
  | c :: t, h => by
    have hc : c ≠ sep := fun hc => h (hc ▸ List.mem_cons_self c t)
    have ht : sep ∉ t := fun ht => h (List.mem_cons_of_mem c ht)
    simp [splitOnChar, hc, splitOnChar_not_mem ht]

theorem splitOnChar_append_sep {sep : Char} :
    ∀ {l1 : List Char} (l2 : List Char), sep ∉ l1 →
      splitOnChar sep (l1 ++ sep :: l2) = l1 :: splitOnChar sep l2
  | [], l2, _ => by simp [splitOnChar]
  | c :: t, l2, h => by
    have hc : c ≠ sep := fun hc => h (hc ▸ List.mem_cons_self c t)
    have ht : sep ∉ t := fun ht => h (List.mem_cons_of_mem c ht)
    simp [splitOnChar, hc, splitOnChar_append_sep l2 ht]

theorem takeWhile_append_all {α : Type} {p : α → Bool} :
    ∀ (l1 l2 : List α), (∀ c ∈ l1, p c) →
      (l1 ++ l2).takeWhile p = l1 ++ l2.takeWhile p
  | [], l2, _ => rfl
  | c :: t, l2, h => by
    have hc : p c := h c (List.mem_cons_self c t)
    have ht : ∀ x ∈ t, p x := fun x hx => h x (List.mem_cons_of_mem c hx)
    simp [List.takeWhile_cons, hc, takeWhile_append_all t l2 ht]

theorem dropWhile_append_all {α : Type} {p : α → Bool} :
    ∀ (l1 l2 : List α), (∀ c ∈ l1, p c) →
      (l1 ++ l2).dropWhile p = l2.dropWhile p
  | [], l2, _ => rfl
  | c :: t, l2, h => by
    have hc : p c := h c (List.mem_cons_self c t)
    have ht : ∀ x ∈ t, p x := fun x hx => h x (List.mem_cons_of_mem c hx)
    simp [List.dropWhile_cons, hc, dropWhile_append_all t l2 ht]

theorem takeWhile_eq_self_of_all {α : Type} {p : α → Bool} {l : List α}
    (h : ∀ c ∈ l, p c) : l.takeWhile p = l := by
  have := takeWhile_append_all l [] h
  simpa using this

theorem dropWhile_eq_self_of_none {α : Type} {p : α → Bool} {l : List α}
    (h : ∀ c ∈ l, ¬ p c) : l.dropWhile p = l := by
  cases l with
  | nil => rfl
  | cons c t =>
    have hc : ¬ p c := h c (List.mem_cons_self c t)
    simp [List.dropWhile_cons, hc]

theorem unquotePlusAux_eq_self : ∀ (fuel : ℕ) {l : List Char},
    (∀ c ∈ l, c ≠ '%' ∧ c ≠ '+') → unquotePlusAux fuel l = l
  | 0, l, _ => by cases l <;> rfl
  | fuel + 1, [], _ => rfl
  | fuel + 1, c :: t, h => by
    have hc := h c (List.mem_cons_self c t)
    have ht : ∀ x ∈ t, x ≠ '%' ∧ x ≠ '+' :=
      fun x hx => h x (List.mem_cons_of_mem c hx)
    simp [unquotePlusAux, hc.1, hc.2, unquotePlusAux_eq_self fuel ht]

theorem unquotePlus_eq_self {l : List Char}
    (h : ∀ c ∈ l, c ≠ '%' ∧ c ≠ '+') : unquotePlus l = l :=
  unquotePlusAux_eq_self l.length h

theorem mem_of_containsSeq {pat : List Char} {c : Char} :
    ∀ {l : List Char}, containsSeq pat l = true → c ∈ pat → c ∈ l
  | [], h, hc => by
    simp [containsSeq, List.isEmpty_iff] at h
    subst h
    exact absurd hc (List.not_mem_nil c)
  | a :: t, h, hc => by
    simp only [containsSeq, Bool.or_eq_true] at h
    rcases h with h | h
    · have : pat <+: a :: t := by
        rwa [← List.isPrefixOf_iff_prefix]
      exact this.subset hc
    · exact List.mem_cons_of_mem a (mem_of_containsSeq h hc)

/-! ## Claim theorems -/

/-- **C1.** For every cache entry, the store operation persists the entry
with the `cached` field forced to `false`; every successful lookup
returns the stored entry with `cached` forced to `true` and all other
fields unchanged; and after a cache miss followed by a successful store,
a lookup of the same key returns the stored data with `cached = true`
(while the in-response entry built by the handler carries
`cached = false`, see `C1_cached_flag_witness` and `upload_branch`). -/
theorem C1_cached_flag {α : Type} :
    (∀ (fs : CacheFs α) (key : String) (p : CacheEntry α),
       write_cache fs true key p key = .found { p with cached := false }) ∧
    (∀ (fs : CacheFs α) (key : String) (e : CacheEntry α),
       fs key = .found e → read_cache fs key = some { e with cached := true }) ∧
    (∀ (fs : CacheFs α) (key : String) (p : CacheEntry α),
       read_cache fs key = none →
       read_cache (write_cache fs true key p) key =
         some { cached := true, data := p.data }) := by
  refine ⟨fun fs key p => by simp [write_cache], fun fs key e he => by simp [read_cache, he],
    fun fs key p _ => by simp [read_cache, write_cache]⟩

/-- Witness for `C1_cached_flag`: a concrete miss–store–lookup sequence;
the stored file carries `cached = false` and the lookup returns
`cached = true` with the data intact. -/
theorem C1_cached_flag_witness :
    write_cache (fun _ => ReadResult.missing : CacheFs Bool) true "k" ⟨true, true⟩ "k" =
      .found ⟨false, true⟩ ∧
    read_cache
      (write_cache (fun _ => ReadResult.missing : CacheFs Bool) true "k" ⟨true, true⟩) "k" =
      some ⟨true, true⟩ :=
  ⟨(C1_cached_flag.1 (fun _ => ReadResult.missing) "k" ⟨true, true⟩),
   (C1_cached_flag.2.2 (fun _ => ReadResult.missing) "k" ⟨true, true⟩ rfl)⟩

/-- **C7.** Cache read and write failures are swallowed: a failing read
yields `none` (treated as absent) and a failing write returns normally
leaving the cache directory unchanged, so the caller proceeds without
caching. -/
theorem C7_cache_failures_swallowed {α : Type} :
    (∀ (fs : CacheFs α) (key : String),
       fs key = .failed → read_cache fs key = none) ∧
    (∀ (fs : CacheFs α) (key : String) (p : CacheEntry α),
       write_cache fs false key p = fs) := by
  exact ⟨fun fs key h => by simp [read_cache, h], fun fs key p => rfl⟩

/-- Witness for `C7_cache_failures_swallowed` at a concrete corrupt
store. -/
theorem C7_cache_failures_swallowed_witness :
    read_cache (fun _ => ReadResult.failed : CacheFs Bool) "k" = none ∧
    write_cache (fun _ => ReadResult.failed : CacheFs Bool) false "k" ⟨true, true⟩ =
      (fun _ => ReadResult.failed) :=
  ⟨C7_cache_failures_swallowed.1 (fun _ => ReadResult.failed) "k" rfl,
   C7_cache_failures_swallowed.2 (fun _ => ReadResult.failed) "k" ⟨true, true⟩⟩

/-- **C5.** No temporary upload file remains after any request the
HTTP layer can actually deliver.  Werkzeug populates `request.files`
only when the body is `multipart/form-data`, and such a body is never
JSON, so a realizable request satisfies
`isJson = true → audioFile = none`.  Under that constraint the upload
branch (the only code that creates the `NamedTemporaryFile`, line 145)
is unreachable — a request carrying an audio file is turned away by the
`is_json` guard at line 80 before the file is created — and every
branch the handler can actually take finishes with no upload temporary
file on disk. -/
theorem C5_no_temp_file_remains (r : TranscribeRequest)
    (yt : TranscribeOutcome) (env : UploadEnv)
    (hflask : r.isJson = true → r.audioFile = none) :
    (transcribe_audio r yt env).2 = false := by
  rcases r with ⟨ij, jt, hy, af⟩
  cases ij with
  | false => rfl
  | true =>
    have haf : af = none := hflask rfl
    subst haf
    cases jt <;> cases hy <;> rfl

/-- Witness for `C5_no_temp_file_remains`: a multipart upload request
(rejected by the JSON guard) and a JSON request, both ending with no
temporary upload file. -/
theorem C5_no_temp_file_remains_witness :
    (transcribe_audio ⟨false, false, false, some "clip.mp3"⟩
       .serverError ⟨false, false⟩).2 = false ∧
    (transcribe_audio ⟨true, true, false, none⟩
       .serverError ⟨false, false⟩).2 = false :=
  ⟨C5_no_temp_file_remains ⟨false, false, false, some "clip.mp3"⟩
     .serverError ⟨false, false⟩ (by decide),
   C5_no_temp_file_remains ⟨true, true, false, none⟩
     .serverError ⟨false, false⟩ (by decide)⟩

/-- **C6** (code bug, `server.py` lines 80-84): a multipart upload
request is not JSON, so the handler returns 400 "Request must be JSON"
before ever consulting `request.files` — the file-upload branch is
unreachable for multipart requests, whatever the JSON-body flags and
oracle outcomes are. -/
theorem C6_multipart_rejected :
    ∀ (jt hy : Bool) (yt : TranscribeOutcome) (env : UploadEnv),
      transcribe_audio ⟨false, jt, hy, some "clip.mp3"⟩ yt env =
        (.badRequest "Request must be JSON", false) := by
  intro jt hy yt env
  rfl

/-- **C9.** With configured limit `N > 0`: a request whose timestamp
falls within 60 seconds of `N` still-recorded earlier requests is
rejected with 429 (bucket unchanged), and once the window slides past
the oldest recorded request the client is admitted again. -/
theorem C9_rate_limit_window (limit : ℕ) (bucket : List ℚ) (now : ℚ)
    (hpos : 0 < limit) :
    (bucket.length = limit → (∀ t ∈ bucket, now - 60 ≤ t) →
       rate_limit_step limit bucket now = (false, bucket)) ∧
    (∀ (oldest : ℚ) (rest : List ℚ), bucket = oldest :: rest →
       rest.length < limit → oldest < now - 60 → (∀ t ∈ rest, now - 60 ≤ t) →
       rate_limit_step limit bucket now = (true, rest ++ [now])) := by
  constructor
  · intro hlen hall
    have hkept : bucket.dropWhile (fun t => t < now - 60) = bucket := by
      apply dropWhile_eq_self_of_none
      intro t ht
      simp only [decide_eq_true_eq]
      exact not_lt.mpr (hall t ht)
    simp [rate_limit_step, Nat.pos_iff_ne_zero.mp hpos, hkept, hlen]
  · intro oldest rest hb hlt hold hrest
    subst hb
    have hkept : (oldest :: rest).dropWhile (fun t => t < now - 60) = rest := by
      rw [List.dropWhile_cons]
      simp only [decide_eq_true_eq, hold, if_pos]
      apply dropWhile_eq_self_of_none
      intro t ht
      simp only [decide_eq_true_eq]
      exact not_lt.mpr (hrest t ht)
    simp [rate_limit_step, Nat.pos_iff_ne_zero.mp hpos, hkept, Nat.not_le.mpr hlt]

/-- Witness for `C9_rate_limit_window`: limit 2, two requests recorded at
t=10 and t=30; a third request at t=60 is rejected with the bucket
unchanged, and a request at t=80 (window slid past t=10) is admitted. -/
theorem C9_rate_limit_window_witness :
    rate_limit_step 2 [10, 30] 60 = (false, [10, 30]) ∧
    rate_limit_step 2 [10, 30] 80 = (true, [30, 80]) :=
  ⟨(C9_rate_limit_window 2 [10, 30] 60 (by norm_num)).1 rfl (by
      intro t ht
      simp only [List.mem_cons, List.mem_singleton] at ht
      rcases ht with rfl | rfl | h
      · norm_num
      · norm_num
      · exact absurd h (List.not_mem_nil t)),
   (C9_rate_limit_window 2 [10, 30] 80 (by norm_num)).2 10 [30] rfl (by norm_num)
     (by norm_num) (by
      intro t ht
      simp only [List.mem_singleton] at ht
      subst ht
      norm_num)⟩

/-- **C10.** A request's timestamp is appended to the client's bucket
only when the request is admitted: a rejected request leaves the bucket
equal to its lazily pruned value — a sublist of the old bucket that does
not contain the new timestamp — so rejected requests never consume quota
or extend the lockout; an admitted request appends exactly its own
timestamp. -/
theorem C10_rejected_no_append (limit : ℕ) (bucket : List ℚ) (now : ℚ)
    (hpos : 0 < limit) (hpast : ∀ t ∈ bucket, t < now) :
    ((rate_limit_step limit bucket now).1 = false →
       (rate_limit_step limit bucket now).2 =
         bucket.dropWhile (fun t => t < now - 60) ∧
       (rate_limit_step limit bucket now).2.Sublist bucket ∧
       now ∉ (rate_limit_step limit bucket now).2) ∧
    ((rate_limit_step limit bucket now).1 = true →
       (rate_limit_step limit bucket now).2 =
         bucket.dropWhile (fun t => t < now - 60) ++ [now]) := by
  have hne : limit ≠ 0 := Nat.pos_iff_ne_zero.mp hpos
  by_cases hfull : limit ≤ (bucket.dropWhile (fun t => t < now - 60)).length
  · refine ⟨fun _ => ⟨?_, ?_, ?_⟩, fun habs => ?_⟩
    · simp [rate_limit_step, hne, hfull]
    · have hout : (rate_limit_step limit bucket now).2 =
          bucket.dropWhile (fun t => t < now - 60) := by
        simp [rate_limit_step, hne, hfull]
      rw [hout]
      exact List.dropWhile_sublist _
    · have hout : (rate_limit_step limit bucket now).2 =
          bucket.dropWhile (fun t => t < now - 60) := by
        simp [rate_limit_step, hne, hfull]
      rw [hout]
      intro hmem
      have hb : now ∈ bucket := (List.dropWhile_sublist _).subset hmem
      exact absurd (hpast now hb) (lt_irrefl now)
    · simp [rate_limit_step, hne, hfull] at habs
  · refine ⟨fun habs => ?_, fun _ => ?_⟩
    · simp [rate_limit_step, hne, hfull] at habs
    · simp [rate_limit_step, hne, hfull]

/-- Witness for `C10_rejected_no_append`: with limit 1 and one recorded
in-window request, the rejected request at t=50 leaves the bucket
exactly `[10]` (no append). -/
theorem C10_rejected_no_append_witness :
    (rate_limit_step 1 [10] 50).2 = [10] ∧ (50 : ℚ) ∉ (rate_limit_step 1 [10] 50).2 := by
  have hkept : ([10] : List ℚ).dropWhile (fun t => t < 50 - 60) = [10] := by
    apply dropWhile_eq_self_of_none
    intro t ht
    simp only [List.mem_singleton] at ht
    subst ht
    simp only [decide_eq_true_eq]
    norm_num
  have h := C10_rejected_no_append 1 [10] 50 (by norm_num) (by
    intro t ht
    simp only [List.mem_singleton] at ht
    subst ht
    norm_num)
  have hfst : (rate_limit_step 1 [10] 50).1 = false := by
    simp [rate_limit_step, hkept]
  have h1 := h.1 hfst
  exact ⟨h1.1.trans hkept, h1.2.2⟩

/-! ### C8: millisecond rounding -/

/-- `pyRound` is a nearest integer, with exact midpoints resolved to the
even neighbour (Python's banker's rounding). -/
theorem pyRound_nearest (x : ℚ) :
    |x - (pyRound x : ℚ)| ≤ 1/2 ∧
    (|x - (pyRound x : ℚ)| = 1/2 → pyRound x % 2 = 0) := by
  have hfr0 : (0 : ℚ) ≤ x - ⌊x⌋ := sub_nonneg.mpr (Int.floor_le x)
  have hfr1 : x - ⌊x⌋ < 1 := by
    have := Int.lt_floor_add_one x
    linarith
  by_cases h1 : x - ⌊x⌋ < 1/2
  · rw [pyRound, if_pos h1]
    rw [abs_of_nonneg hfr0]
    exact ⟨by linarith, fun h => absurd h (by linarith)⟩
  · by_cases h2 : 1/2 < x - ⌊x⌋
    · rw [pyRound, if_neg h1, if_pos h2]
      have hc : x - ((⌊x⌋ + 1 : ℤ) : ℚ) = x - ⌊x⌋ - 1 := by push_cast; ring
      rw [hc, abs_of_nonpos (by linarith)]
      exact ⟨by linarith, fun h => absurd h (by linarith)⟩
    · have heq : x - ⌊x⌋ = 1/2 := le_antisymm (not_lt.mp h2) (not_lt.mp h1)
      by_cases h3 : ⌊x⌋ % 2 = 0
      · rw [pyRound, if_neg h1, if_neg h2, if_pos h3]
        rw [abs_of_nonneg hfr0, heq]
        exact ⟨le_refl _, fun _ => h3⟩
      · rw [pyRound, if_neg h1, if_neg h2, if_neg h3]
        have hc : x - ((⌊x⌋ + 1 : ℤ) : ℚ) = x - ⌊x⌋ - 1 := by push_cast; ring
        rw [hc, abs_of_nonpos (by linarith), heq]
        norm_num
        omega

/-- **C8** (corrected): for nonnegative seconds, `int(seconds)` is the
floor, the millisecond component is Python `round` applied to
`(seconds - floor(seconds)) * 1000` — the nearest integer with exact
midpoints resolved to the **even** value (banker's rounding), not
half-up — and the output is the zero-padded `HH:MM:SS` prefix followed
by the (normally three-digit) millisecond value, with `,` for SRT and
`.` for VTT. -/
theorem C8_timestamp_rounding (s : ℚ) (hs : 0 ≤ s) :
    intTrunc s = ⌊s⌋ ∧
    |(s - (⌊s⌋ : ℚ)) * 1000 - (pyRound ((s - (⌊s⌋ : ℚ)) * 1000) : ℚ)| ≤ 1/2 ∧
    (|(s - (⌊s⌋ : ℚ)) * 1000 - (pyRound ((s - (⌊s⌋ : ℚ)) * 1000) : ℚ)| = 1/2 →
       pyRound ((s - (⌊s⌋ : ℚ)) * 1000) % 2 = 0) ∧
    seconds_to_srt_time s =
      padNum 2 (⌊s⌋.fdiv 3600) ++ ":" ++ padNum 2 ((⌊s⌋.fmod 3600).fdiv 60) ++ ":" ++
        padNum 2 (⌊s⌋.fmod 60) ++ "," ++ padNum 3 (pyRound ((s - (⌊s⌋ : ℚ)) * 1000)) ∧
    seconds_to_vtt_time s =
      padNum 2 (⌊s⌋.fdiv 3600) ++ ":" ++ padNum 2 ((⌊s⌋.fmod 3600).fdiv 60) ++ ":" ++
        padNum 2 (⌊s⌋.fmod 60) ++ "." ++ padNum 3 (pyRound ((s - (⌊s⌋ : ℚ)) * 1000)) := by
  have htr : intTrunc s = ⌊s⌋ := by
    have hnum : 0 ≤ s.num := Rat.num_nonneg.mpr hs
    rw [intTrunc, Int.tdiv_eq_ediv hnum (Int.ofNat_nonneg s.den), Rat.floor_def]
  refine ⟨htr, (pyRound_nearest _).1, (pyRound_nearest _).2, ?_, ?_⟩
  · unfold seconds_to_srt_time
    rw [htr]
  · unfold seconds_to_vtt_time
    rw [htr]

/-- Counterexample to C8 as stated: at `seconds = 1/16` (`0.0625`, an
exactly representable double whose scaled fraction is exactly `62.5`),
round-half-up predicts millisecond component `63`, but the code renders
`062`. -/
theorem C8_half_up_refuted :
    seconds_to_srt_time (1/16 : ℚ) = "00:00:00,062" ∧
    seconds_to_vtt_time (1/16 : ℚ) = "00:00:00.062" ∧
    specHalfUp (((1/16 : ℚ) - (⌊(1/16 : ℚ)⌋ : ℚ)) * 1000) = 63 ∧
    ("00:00:00," ++ padNum 3 63 : String) = "00:00:00,063" ∧
    ("00:00:00,062" : String) ≠ "00:00:00,063" := by
  have hf0 : (⌊(1/16 : ℚ)⌋ : ℤ) = 0 := by
    rw [Int.floor_eq_iff]
    constructor <;> norm_num
  have htr : intTrunc (1/16 : ℚ) = 0 := by
    have hnum : 0 ≤ (1/16 : ℚ).num := Rat.num_nonneg.mpr (by norm_num)
    rw [intTrunc, Int.tdiv_eq_ediv hnum (Int.ofNat_nonneg _), ← Rat.floor_def, hf0]
  have hx : ((1/16 : ℚ) - ((0 : ℤ) : ℚ)) * 1000 = 125/2 := by
    push_cast
    norm_num
  have hf625 : (⌊(125/2 : ℚ)⌋ : ℤ) = 62 := by
    rw [Int.floor_eq_iff]
    constructor <;> norm_num
  have hround : pyRound (125/2 : ℚ) = 62 := by
    rw [pyRound, hf625, if_neg (by norm_num), if_neg (by norm_num), if_pos (by norm_num)]
  constructor
  · unfold seconds_to_srt_time
    rw [htr, hx, hround]
    decide
  constructor
  · unfold seconds_to_vtt_time
    rw [htr, hx, hround]
    decide
  refine ⟨?_, by rfl, by decide⟩
  rw [specHalfUp, hf0]
  have h63 : ((1/16 : ℚ) - ((0 : ℤ) : ℚ)) * 1000 + 1/2 = ((63 : ℤ) : ℚ) := by
    push_cast
    norm_num
  rw [h63]
  exact Int.floor_intCast 63

/-- Witness for `C8_timestamp_rounding` at `s = 3/2`: the hypotheses are
satisfied and the rendered SRT timestamp is `00:00:01,500`. -/
theorem C8_timestamp_rounding_witness :
    intTrunc (3/2 : ℚ) = ⌊(3/2 : ℚ)⌋ ∧
    |((3/2 : ℚ) - (⌊(3/2 : ℚ)⌋ : ℚ)) * 1000 -
        (pyRound (((3/2 : ℚ) - (⌊(3/2 : ℚ)⌋ : ℚ)) * 1000) : ℚ)| ≤ 1/2 ∧
    seconds_to_srt_time (3/2 : ℚ) = "00:00:01,500" := by
  have h := C8_timestamp_rounding (3/2) (by norm_num)
  refine ⟨h.1, h.2.1, ?_⟩
  have hf1 : (⌊(3/2 : ℚ)⌋ : ℤ) = 1 := by
    rw [Int.floor_eq_iff]
    constructor <;> norm_num
  have hx : ((3/2 : ℚ) - (⌊(3/2 : ℚ)⌋ : ℚ)) * 1000 = ((500 : ℤ) : ℚ) := by
    rw [hf1]
    push_cast
    norm_num
  have hround : pyRound (((3/2 : ℚ) - (⌊(3/2 : ℚ)⌋ : ℚ)) * 1000) = 500 := by
    rw [hx, pyRound, Int.floor_intCast]
    rw [if_pos (by norm_num)]
  rw [h.2.2.2.1, hround, hf1]
  decide

/-! ### C3: transcript fetcher fallback chain -/

/-- **C3.** `fetch_transcript` returns the result of the first succeeding
strategy in the spec's strict priority order — direct retrieval, then
(a) exact language match, (b) manually created, (c) generated, (d) first
fetchable track, (e) first translatable track machine-translated — every
intermediate failure being swallowed; it fails exactly when every
strategy fails, and the only error it ever produces is `NotAvailable`. -/
theorem C3_fallback_chain {α : Type} (env : TranscriptEnv α) :
    (fetch_transcript env =
      match (fetchStrategies env).findSome? id with
      | some s => Except.ok s
      | none => Except.error FetchError.notAvailable) ∧
    (∀ e, fetch_transcript env = .error e → e = .notAvailable) := by
  constructor
  · rcases env with ⟨af, gt, lt, ft, fm, fg⟩
    cases af with
    | some a => rfl
    | none =>
      cases gt with
      | some a => rfl
      | none =>
        cases lt with
        | none => rfl
        | some tracks =>
          cases h1 : ft.bind Track.fetchResult with
          | some a => simp [fetch_transcript, fetchStrategies, h1]
          | none =>
            cases h2 : fm.bind Track.fetchResult with
            | some a => simp [fetch_transcript, fetchStrategies, h1, h2]
            | none =>
              cases h3 : fg.bind Track.fetchResult with
              | some a => simp [fetch_transcript, fetchStrategies, h1, h2, h3]
              | none =>
                cases h4 : tracks.findSome? Track.fetchResult with
                | some a => simp [fetch_transcript, fetchStrategies, h1, h2, h3, h4]
                | none =>
                  cases h5 : tracks.findSome?
                      (fun (t : Track α) =>
                        if t.is_translatable then t.translateFetch else none) with
                  | some a =>
                    simp [fetch_transcript, fetchStrategies, h1, h2, h3, h4, h5]
                  | none =>
                    simp [fetch_transcript, fetchStrategies, h1, h2, h3, h4, h5]
  · intro e he
    cases e
    rfl

/-- Witness for `C3_fallback_chain`: a concrete environment where the
first four strategies fail and the fifth (first fetchable track)
succeeds, and one where everything fails and the error is
`NotAvailable`. -/
theorem C3_fallback_chain_witness :
    fetch_transcript
      (⟨none, none, some [⟨none, false, none⟩, ⟨some 7, false, none⟩],
        none, none, none⟩ : TranscriptEnv ℕ) = .ok 7 ∧
    fetch_transcript
      (⟨none, none, none, none, none, none⟩ : TranscriptEnv ℕ) =
        .error .notAvailable ∧
    FetchError.notAvailable = FetchError.notAvailable :=
  ⟨(C3_fallback_chain
      (⟨none, none, some [⟨none, false, none⟩, ⟨some 7, false, none⟩],
        none, none, none⟩ : TranscriptEnv ℕ)).1.trans (by rfl),
   (C3_fallback_chain
      (⟨none, none, none, none, none, none⟩ : TranscriptEnv ℕ)).1.trans (by rfl),
   (C3_fallback_chain
      (⟨none, none, none, none, none, none⟩ : TranscriptEnv ℕ)).2
     FetchError.notAvailable (by rfl)⟩

/-! ### C2: cache key derivation -/

/-- Splitting at an unambiguous separator: when neither left part
contains `'|'`, equal `a ++ '|' :: b` concatenations have equal parts. -/
theorem sep_split {a1 a2 b1 b2 : List Char} :
    '|' ∉ a1 → '|' ∉ a2 → a1 ++ '|' :: b1 = a2 ++ '|' :: b2 →
      a1 = a2 ∧ b1 = b2 := by
  induction a1 generalizing a2 with
  | nil =>
    intro _ h2 h
    cases a2 with
    | nil => simpa using h
    | cons c t =>
      simp only [List.nil_append, List.cons_append, List.cons.injEq] at h
      exact absurd (h.1 ▸ List.mem_cons_self c t) h2
  | cons c t ih =>
    intro h1 h2 h
    cases a2 with
    | nil =>
      simp only [List.nil_append, List.cons_append, List.cons.injEq] at h
      exact absurd (h.1 ▸ List.mem_cons_self c t) h1
    | cons c2 t2 =>
      simp only [List.cons_append, List.cons.injEq] at h
      have ht1 : '|' ∉ t := fun hm => h1 (List.mem_cons_of_mem c hm)
      have ht2 : '|' ∉ t2 := fun hm => h2 (List.mem_cons_of_mem c2 hm)
      obtain ⟨rfl, hb⟩ := ih ht1 ht2 h.2
      exact ⟨by rw [h.1], (ih ht1 ht2 h.2).2⟩

/-- The char list of the youtube key pre-image, in separator-split form. -/
theorem youtube_key_string_data (model url : String) :
    (youtube_key_string model url).data =
      "youtube".data ++ '|' :: (model.data ++ '|' :: url.data) := by
  show ("youtube|" ++ model ++ "|" ++ url).data = _
  simp only [String.data_append]
  show "youtube".data ++ ['|'] ++ model.data ++ "|".data ++ url.data = _
  simp

/-- **C2.** The cache key is the SHA-256 hex digest of the namespaced
pre-image (`"youtube|<model>|<url>"` UTF-8 encoded for URL input, the
bytes of `"file|<model>|"` followed by the file bytes for file input);
identical model and URL give identical keys; the pre-images determine
the model and URL when the model identifier is `'|'`-free, so distinct
URLs, models or file bytes give distinct digest inputs (in particular,
equal keys for different URLs would exhibit a SHA-256 collision), and
the file and youtube namespaces never collide on pre-images. -/
theorem C2_cache_key_derivation (m m1 m2 u u1 u2 : String) (bs bs1 bs2 : List ℕ)
    (hm1 : '|' ∉ m1.data) (hm2 : '|' ∉ m2.data) :
    build_youtube_cache_key m u =
      sha256hex (utf8Encode ("youtube|" ++ m ++ "|" ++ u)) ∧
    build_file_cache_key m bs =
      sha256hex (utf8Encode ("file|" ++ m ++ "|") ++ bs) ∧
    (m1 = m2 → u1 = u2 →
      build_youtube_cache_key m1 u1 = build_youtube_cache_key m2 u2) ∧
    (youtube_key_string m1 u1 = youtube_key_string m2 u2 → m1 = m2 ∧ u1 = u2) ∧
    (bs1 ≠ bs2 → file_key_bytes m bs1 ≠ file_key_bytes m bs2) ∧
    (file_key_bytes m bs ≠ utf8Encode (youtube_key_string m1 u1)) ∧
    (build_youtube_cache_key m1 u1 = build_youtube_cache_key m2 u2 →
      (m1 = m2 ∧ u1 = u2) ∨
      ∃ s1 s2 : String, s1 ≠ s2 ∧
        sha256hex (utf8Encode s1) = sha256hex (utf8Encode s2)) := by
  have hpre : ∀ (v w : String), youtube_key_string m1 v = youtube_key_string m2 w →
      m1 = m2 ∧ v = w := by
    intro v w h
    have hd := congrArg String.data h
    rw [youtube_key_string_data, youtube_key_string_data] at hd
    have hd2 := List.append_cancel_left hd
    have hd3 : m1.data ++ '|' :: v.data = m2.data ++ '|' :: w.data := by
      simpa using hd2
    obtain ⟨hm, hu⟩ := sep_split hm1 hm2 hd3
    exact ⟨String.ext hm, String.ext hu⟩
  refine ⟨rfl, rfl, ?_, hpre u1 u2, ?_, ?_, ?_⟩
  · intro h1 h2
    rw [h1, h2]
  · intro hne h
    exact hne (List.append_cancel_left h)
  · intro h
    have h1 : (file_key_bytes m bs).head? = some 102 := by
      have : ("file|" ++ m ++ "|").data = 'f' :: ("ile|".data ++ m.data ++ "|".data) := by
        simp [String.data_append]
      rw [file_key_bytes, utf8Encode, this]
      rfl
    have h2 : (utf8Encode (youtube_key_string m1 u1)).head? = some 121 := by
      rw [utf8Encode, youtube_key_string_data]
      rfl
    rw [h] at h1
    rw [h1] at h2
    simp at h2
  · intro hkey
    by_cases heq : youtube_key_string m1 u1 = youtube_key_string m2 u2
    · exact Or.inl (hpre u1 u2 heq)
    · exact Or.inr ⟨youtube_key_string m1 u1, youtube_key_string m2 u2, heq, hkey⟩

/-- Witness for `C2_cache_key_derivation`: the concrete `MODEL` constant
is `'|'`-free, concrete distinct URLs yield concretely distinct
pre-images, and the two concrete keys (full SHA-256 digests computed in
the kernel) are distinct. -/
theorem C2_cache_key_derivation_witness :
    ('|' ∉ MODEL.data) ∧
    (youtube_key_string MODEL "urlA" = youtube_key_string MODEL "urlB" →
       MODEL = MODEL ∧ "urlA" = "urlB") ∧
    build_youtube_cache_key MODEL "urlA" ≠ build_youtube_cache_key MODEL "urlB" ∧
    build_file_cache_key MODEL [0, 1] ≠ build_file_cache_key MODEL [0, 2] :=
  ⟨by decide,
   (C2_cache_key_derivation MODEL MODEL MODEL MODEL "urlA" "urlB" [] [] []
      (by decide) (by decide)).2.2.2.1,
   by decide, by decide⟩

/-! ### C4: video id extraction -/

/-- Characters allowed in a "clean" video id: printable, above space, and
none of the URL metacharacters that would change how CPython's URL
parsing carves up the input (`/` path, `?` query, `#` fragment, `&`/`=`
query pairs, `%`/`+` quoting, `;` params). -/
def goodIdChar (c : Char) : Prop :=
  32 < c.toNat ∧ c ∉ (['/', '?', '#', '&', '=', '%', '+', ';'] : List Char)

instance (c : Char) : Decidable (goodIdChar c) := by
  unfold goodIdChar
  infer_instance

/-- A well-formed raw video id: nonempty and made of clean characters. -/
def goodId (id : String) : Prop :=
  id.data ≠ [] ∧ ∀ c ∈ id.data, goodIdChar c

instance (id : String) : Decidable (goodId id) := by
  unfold goodId
  infer_instance

/-- The host that `extract_video_id` checks, as a function of the raw
input (empty when parsing raises). -/
def parsedHost (s : String) : List Char :=
  match pyUrlparse s.data with
  | .ok u => hostnameOf u.netloc
  | .error _ => []

theorem sanitizeUrl_eq_self {l : List Char} (h : ∀ c ∈ l, 32 < c.toNat) :
    sanitizeUrl l = l := by
  rw [sanitizeUrl]
  have hdrop : l.dropWhile (fun c => decide (c.toNat ≤ 32)) = l := by
    apply dropWhile_eq_self_of_none
    intro c hc
    simp only [decide_eq_true_eq]
    exact Nat.not_le.mpr (h c hc)
  rw [hdrop]
  apply List.filter_eq_self.mpr
  intro c hc
  have h32 := h c hc
  simp only [Bool.not_eq_true', Bool.or_eq_false_iff, beq_eq_false_iff_ne]
  refine ⟨⟨fun he => ?_, fun he => ?_⟩, fun he => ?_⟩ <;>
    · subst he
      exact absurd h32 (by decide)

/-- If a pattern occurs in `l1`, it occurs in `l1 ++ l2`. -/
theorem containsSeq_append_of_left {pat : List Char} :
    ∀ {l1 : List Char} (l2 : List Char), containsSeq pat l1 = true →
      containsSeq pat (l1 ++ l2) = true
  | [], l2, h => by
    simp only [containsSeq, List.isEmpty_iff] at h
    subst h
    cases l2 with
    | nil => rfl
    | cons c t => simp [containsSeq, List.isPrefixOf]
  | c :: t, l2, h => by
    simp only [containsSeq, Bool.or_eq_true] at h ⊢
    rcases h with h | h
    · left
      have hp : pat <+: c :: t := by rwa [← List.isPrefixOf_iff_prefix]
      rw [List.isPrefixOf_iff_prefix]
      exact hp.trans (List.prefix_append (c :: t) l2)
    · right
      exact containsSeq_append_of_left l2 h

/-- `splitParams` is the identity on a path whose final segment (after
the last `/`) contains no `;`. -/
theorem splitParams_slash (P l : List Char) (hl : '/' ∉ l) (hsemi : ';' ∉ l) :
    splitParams (P ++ '/' :: l) = P ++ '/' :: l := by
  have hmem : '/' ∈ P ++ '/' :: l :=
    List.mem_append_right P (List.mem_cons_self '/' l)
  rw [splitParams, if_pos hmem]
  have hrev : (P ++ '/' :: l).reverse = l.reverse ++ '/' :: P.reverse := by
    simp
  have htake : ((P ++ '/' :: l).reverse.takeWhile (fun c => !(c == '/'))) =
      l.reverse := by
    rw [hrev, takeWhile_append_all]
    · rw [List.takeWhile_cons]
      simp
    · intro c hc
      have : c ∈ l := List.mem_reverse.mp hc
      simp only [Bool.not_eq_true']
      exact beq_eq_false_iff_ne.mpr (fun he => hl (he ▸ this))
  rw [htake, List.reverse_reverse]
  show (P ++ '/' :: l).take ((P ++ '/' :: l).length - l.length) ++
      (splitAtFirst ';' l).1 = P ++ '/' :: l
  have hlen : (P ++ '/' :: l).length - l.length = P.length + 1 := by
    simp only [List.length_append, List.length_cons]
    omega
  rw [hlen]
  have htake2 : (P ++ '/' :: l).take (P.length + 1) = P ++ ['/'] := by
    rw [List.take_append]
    simp
  rw [htake2, splitAtFirst_not_mem hsemi]
  simp

theorem parse_watch {l : List Char} (h32 : ∀ c ∈ l, 32 < c.toNat)
    (hh : '#' ∉ l) :
    pyUrlparse ("https://www.youtube.com/watch?v=".data ++ l) =
      .ok ⟨"https".data, "www.youtube.com".data, "/watch".data,
           'v' :: '=' :: l⟩ := by
  have hall : ∀ c ∈ "https://www.youtube.com/watch?v=".data ++ l, 32 < c.toNat := by
    intro c hc
    rcases List.mem_append.mp hc with h | h
    · exact (by decide : ∀ x ∈ "https://www.youtube.com/watch?v=".data,
        32 < x.toNat) c h
    · exact h32 c h
  have hfrag : splitAtFirst '#' ("/watch?v=".data ++ l) =
      ("/watch?v=".data ++ l, none) := by
    apply splitAtFirst_not_mem
    intro hm
    rcases List.mem_append.mp hm with h | h
    · exact absurd h (by decide)
    · exact hh h
  calc pyUrlparse ("https://www.youtube.com/watch?v=".data ++ l)
      = .ok ⟨"https".data, "www.youtube.com".data,
          splitParams
            (splitAtFirst '?' ((splitAtFirst '#' ("/watch?v=".data ++ l)).1)).1,
          (match (splitAtFirst '?'
              ((splitAtFirst '#' ("/watch?v=".data ++ l)).1)).2 with
           | some q => q
           | none => [])⟩ := by
        unfold pyUrlparse
        rw [sanitizeUrl_eq_self hall]
        rfl
    _ = _ := by
        rw [hfrag]
        rfl

theorem qsFirstV_simple {l : List Char} (hne : l ≠ [])
    (hamp : '&' ∉ 'v' :: '=' :: l) (hunq : ∀ c ∈ l, c ≠ '%' ∧ c ≠ '+') :
    qsFirstV ('v' :: '=' :: l) = some l := by
  rw [qsFirstV, parse_qs_pairs, splitOnChar_not_mem hamp]
  have hsplit : splitAtFirst '=' ('v' :: '=' :: l) = (['v'], some l) := rfl
  rw [List.filterMap]
  simp only [hsplit, if_neg (List.cons_ne_nil _ _ : 'v' :: '=' :: l ≠ []),
    if_neg hne]
  rw [unquotePlus_eq_self hunq]
  rfl

theorem extract_watch {l : List Char} (hne : l ≠ [])
    (hchars : ∀ c ∈ l, goodIdChar c) :
    extract_video_id ("https://www.youtube.com/watch?v=" ++ String.mk l) =
      some (String.mk l) := by
  have h32 : ∀ c ∈ l, 32 < c.toNat := fun c hc => (hchars c hc).1
  have hnot : ∀ x ∈ (['/', '?', '#', '&', '=', '%', '+', ';'] : List Char),
      x ∉ l := fun x hx hxl => (hchars x hxl).2 hx
  have hdata : ("https://www.youtube.com/watch?v=" ++ String.mk l).data =
      "https://www.youtube.com/watch?v=".data ++ l := String.data_append _ _
  have hcontains : containsSeq "://".data
      ("https://www.youtube.com/watch?v=".data ++ l) = true :=
    containsSeq_append_of_left l (by decide)
  have hqs : qsFirstV ('v' :: '=' :: l) = some l := by
    apply qsFirstV_simple hne
    · intro hm
      simp only [List.mem_cons] at hm
      rcases hm with h | h | h
      · exact absurd h (by decide)
      · exact absurd h (by decide)
      · exact hnot '&' (by decide) h
    · intro c hc
      exact ⟨fun he => hnot '%' (by decide) (he ▸ hc),
             fun he => hnot '+' (by decide) (he ▸ hc)⟩
  unfold extract_video_id
  rw [hdata]
  rw [if_neg (by simp : ¬ ("https://www.youtube.com/watch?v=".data ++ l = []))]
  rw [if_neg (fun hcond => hcond.1 hcontains)]
  rw [parse_watch h32 (hnot '#' (by decide))]
  show (qsFirstV ('v' :: '=' :: l)).map String.mk = some (String.mk l)
  rw [hqs]
  rfl

theorem parse_youtu_be {l : List Char} (h32 : ∀ c ∈ l, 32 < c.toNat)
    (hh : '#' ∉ l) (hq : '?' ∉ l) (hs : '/' ∉ l) (hsemi : ';' ∉ l) :
    pyUrlparse ("https://youtu.be/".data ++ l) =
      .ok ⟨"https".data, "youtu.be".data, '/' :: l, []⟩ := by
  have hall : ∀ c ∈ "https://youtu.be/".data ++ l, 32 < c.toNat := by
    intro c hc
    rcases List.mem_append.mp hc with h | h
    · exact (by decide : ∀ x ∈ "https://youtu.be/".data, 32 < x.toNat) c h
    · exact h32 c h
  have hfrag : splitAtFirst '#' ('/' :: l) = ('/' :: l, none) := by
    apply splitAtFirst_not_mem
    intro hm
    simp only [List.mem_cons] at hm
    rcases hm with h | h
    · exact absurd h (by decide)
    · exact hh h
  have hquery : splitAtFirst '?' ('/' :: l) = ('/' :: l, none) := by
    apply splitAtFirst_not_mem
    intro hm
    simp only [List.mem_cons] at hm
    rcases hm with h | h
    · exact absurd h (by decide)
    · exact hq h
  have hparams : splitParams ('/' :: l) = '/' :: l :=
    splitParams_slash [] l hs hsemi
  calc pyUrlparse ("https://youtu.be/".data ++ l)
      = .ok ⟨"https".data, "youtu.be".data,
          splitParams (splitAtFirst '?' ((splitAtFirst '#' ('/' :: l)).1)).1,
          (match (splitAtFirst '?' ((splitAtFirst '#' ('/' :: l)).1)).2 with
           | some q => q
           | none => [])⟩ := by
        unfold pyUrlparse
        rw [sanitizeUrl_eq_self hall]
        rfl
    _ = _ := by
        rw [hfrag]
        show Except.ok (⟨"https".data, "youtu.be".data,
          splitParams (splitAtFirst '?' ('/' :: l)).1,
          (match (splitAtFirst '?' ('/' :: l)).2 with
           | some q => q
           | none => [])⟩ : UrlParts) = _
        rw [hquery]
        show Except.ok (⟨"https".data, "youtu.be".data,
          splitParams ('/' :: l), []⟩ : UrlParts) = _
        rw [hparams]

theorem extract_youtu_be {l : List Char} (hne : l ≠ [])
    (hchars : ∀ c ∈ l, goodIdChar c) :
    extract_video_id ("https://youtu.be/" ++ String.mk l) =
      some (String.mk l) := by
  have h32 : ∀ c ∈ l, 32 < c.toNat := fun c hc => (hchars c hc).1
  have hnot : ∀ x ∈ (['/', '?', '#', '&', '=', '%', '+', ';'] : List Char),
      x ∉ l := fun x hx hxl => (hchars x hxl).2 hx
  have hdata : ("https://youtu.be/" ++ String.mk l).data =
      "https://youtu.be/".data ++ l := String.data_append _ _
  have hcontains : containsSeq "://".data
      ("https://youtu.be/".data ++ l) = true :=
    containsSeq_append_of_left l (by decide)
  have hdrop : ('/' :: l).dropWhile (fun c => c == '/') = l := by
    rw [List.dropWhile_cons]
    simp only [beq_self_eq_true, if_true]
    apply dropWhile_eq_self_of_none
    intro c hc
    simp only [Bool.not_eq_true]
    exact beq_eq_false_iff_ne.mpr (fun he => hnot '/' (by decide) (he ▸ hc))
  unfold extract_video_id
  rw [hdata]
  rw [if_neg (by simp : ¬ ("https://youtu.be/".data ++ l = []))]
  rw [if_neg (fun hcond => hcond.1 hcontains)]
  rw [parse_youtu_be h32 (hnot '#' (by decide)) (hnot '?' (by decide))
    (hnot '/' (by decide)) (hnot ';' (by decide))]
  show (if ('/' :: l).dropWhile (fun c => c == '/') = [] then none
        else some (String.mk (('/' :: l).dropWhile (fun c => c == '/')))) =
      some (String.mk l)
  rw [hdrop, if_neg hne]

theorem parse_shorts {l : List Char} (h32 : ∀ c ∈ l, 32 < c.toNat)
    (hh : '#' ∉ l) (hq : '?' ∉ l) (hs : '/' ∉ l) (hsemi : ';' ∉ l) :
    pyUrlparse ("https://www.youtube.com/shorts/".data ++ l) =
      .ok ⟨"https".data, "www.youtube.com".data, "/shorts/".data ++ l, []⟩ := by
  have hall : ∀ c ∈ "https://www.youtube.com/shorts/".data ++ l, 32 < c.toNat := by
    intro c hc
    rcases List.mem_append.mp hc with h | h
    · exact (by decide : ∀ x ∈ "https://www.youtube.com/shorts/".data,
        32 < x.toNat) c h
    · exact h32 c h
  have hfrag : splitAtFirst '#' ("/shorts/".data ++ l) =
      ("/shorts/".data ++ l, none) := by
    apply splitAtFirst_not_mem
    intro hm
    rcases List.mem_append.mp hm with h | h
    · exact absurd h (by decide)
    · exact hh h
  have hquery : splitAtFirst '?' ("/shorts/".data ++ l) =
      ("/shorts/".data ++ l, none) := by
    apply splitAtFirst_not_mem
    intro hm
    rcases List.mem_append.mp hm with h | h
    · exact absurd h (by decide)
    · exact hq h
  have hparams : splitParams ("/shorts/".data ++ l) = "/shorts/".data ++ l :=
    splitParams_slash "/shorts".data l hs hsemi
  calc pyUrlparse ("https://www.youtube.com/shorts/".data ++ l)
      = .ok ⟨"https".data, "www.youtube.com".data,
          splitParams
            (splitAtFirst '?' ((splitAtFirst '#' ("/shorts/".data ++ l)).1)).1,
          (match (splitAtFirst '?'
              ((splitAtFirst '#' ("/shorts/".data ++ l)).1)).2 with
           | some q => q
           | none => [])⟩ := by
        unfold pyUrlparse
        rw [sanitizeUrl_eq_self hall]
        rfl
    _ = _ := by
        rw [hfrag]
        show Except.ok (⟨"https".data, "www.youtube.com".data,
          splitParams (splitAtFirst '?' ("/shorts/".data ++ l)).1,
          (match (splitAtFirst '?' ("/shorts/".data ++ l)).2 with
           | some q => q
           | none => [])⟩ : UrlParts) = _
        rw [hquery]
        show Except.ok (⟨"https".data, "www.youtube.com".data,
          splitParams ("/shorts/".data ++ l), []⟩ : UrlParts) = _
        rw [hparams]

theorem extract_shorts {l : List Char} (_hne : l ≠ [])
    (hchars : ∀ c ∈ l, goodIdChar c) :
    extract_video_id ("https://www.youtube.com/shorts/" ++ String.mk l) =
      some (String.mk l) := by
  have h32 : ∀ c ∈ l, 32 < c.toNat := fun c hc => (hchars c hc).1
  have hnot : ∀ x ∈ (['/', '?', '#', '&', '=', '%', '+', ';'] : List Char),
      x ∉ l := fun x hx hxl => (hchars x hxl).2 hx
  have hdata : ("https://www.youtube.com/shorts/" ++ String.mk l).data =
      "https://www.youtube.com/shorts/".data ++ l := String.data_append _ _
  have hcontains : containsSeq "://".data
      ("https://www.youtube.com/shorts/".data ++ l) = true :=
    containsSeq_append_of_left l (by decide)
  have hsplit : splitOnChar '/' ("/shorts/".data ++ l) =
      [[], "shorts".data, l] := by
    calc splitOnChar '/' ("/shorts/".data ++ l)
        = [] :: splitOnChar '/' ("shorts".data ++ '/' :: l) := rfl
      _ = [] :: "shorts".data :: splitOnChar '/' l := by
          rw [splitOnChar_append_sep l (by decide)]
      _ = [[], "shorts".data, l] := by
          rw [splitOnChar_not_mem (hnot '/' (by decide))]
  unfold extract_video_id
  rw [hdata]
  rw [if_neg (by simp : ¬ ("https://www.youtube.com/shorts/".data ++ l = []))]
  rw [if_neg (fun hcond => hcond.1 hcontains)]
  rw [parse_shorts h32 (hnot '#' (by decide)) (hnot '?' (by decide))
    (hnot '/' (by decide)) (hnot ';' (by decide))]
  have hyb : containsSeq "youtu.be".data (hostnameOf "www.youtube.com".data) =
      false := rfl
  have hyc : containsSeq "youtube.com".data (hostnameOf "www.youtube.com".data) =
      true := rfl
  have hw : "/watch".data.isPrefixOf ("/shorts/".data ++ l) = false := rfl
  have hsh : "/shorts/".data.isPrefixOf ("/shorts/".data ++ l) = true :=
    List.isPrefixOf_iff_prefix.mpr (List.prefix_append _ _)
  simp only [hyb, hyc, hw, hsh, hsplit]
  simp

/-- **C4** (amended).  Bare tokens (no slash, length ≥ 8) are returned
unchanged; well-formed `watch?v=`, `youtu.be/` and `shorts/` URLs with a
clean id return exactly the id; any input that is not a bare token and
whose parsed host contains neither `youtu.be` nor `youtube.com` — hosts
are matched by substring, per the spec — yields `None`, as do a missing
`v` parameter, an empty `youtu.be` path, an invalid-IPv6 URL and empty
input; but a `shorts/` URL with an **empty** final segment returns the
empty string (a falsy no-id marker) rather than `None`. -/
theorem C4_extract_video_id :
    (∀ s : String, '/' ∉ s.data → 8 ≤ s.length → extract_video_id s = some s) ∧
    (∀ id : String, goodId id →
        extract_video_id ("https://www.youtube.com/watch?v=" ++ id) = some id ∧
        extract_video_id ("https://youtu.be/" ++ id) = some id ∧
        extract_video_id ("https://www.youtube.com/shorts/" ++ id) = some id) ∧
    (∀ s : String,
        (containsSeq "://".data s.data = true ∨ '/' ∈ s.data ∨ s.length < 8) →
        containsSeq "youtu.be".data (parsedHost s) = false →
        containsSeq "youtube.com".data (parsedHost s) = false →
        extract_video_id s = none) ∧
    (extract_video_id "https://www.youtube.com/watch" = none ∧
     extract_video_id "https://www.youtube.com/watch?v=" = none ∧
     extract_video_id "https://youtu.be/" = none ∧
     extract_video_id "http://[::1" = none ∧
     extract_video_id "" = none) ∧
    extract_video_id "https://www.youtube.com/shorts/" = some "" := by
  refine ⟨?_, ?_, ?_, ?_, ?_⟩
  · intro s hs hlen
    obtain ⟨l⟩ := s
    have hs' : '/' ∉ l := hs
    have hlen' : 8 ≤ l.length := hlen
    have hnil : l ≠ [] := by
      intro h
      subst h
      simp at hlen'
    unfold extract_video_id
    rw [if_neg hnil]
    rw [if_pos]
    constructor
    · intro hc
      exact hs' (mem_of_containsSeq hc (by decide))
    constructor
    · intro hc
      exact hs' (List.elem_iff.mp hc)
    · exact hlen'
  · intro id hgood
    obtain ⟨l⟩ := id
    obtain ⟨hne, hchars⟩ := hgood
    exact ⟨extract_watch hne hchars, extract_youtu_be hne hchars,
           extract_shorts hne hchars⟩
  · intro s hbare hyb hyc
    obtain ⟨l⟩ := s
    by_cases hnil : l = []
    · subst hnil
      rfl
    · have hbar2 : ¬ (¬ (containsSeq "://".data l = true) ∧
          ¬ (l.contains '/' = true) ∧ 8 ≤ l.length) := by
        rintro ⟨n1, n2, n3⟩
        rcases hbare with h | h | h
        · exact n1 h
        · exact n2 (List.elem_iff.mpr h)
        · exact absurd n3 (Nat.not_le.mpr h)
      unfold extract_video_id
      rw [if_neg hnil, if_neg hbar2]
      cases hp : pyUrlparse l with
      | error e => rfl
      | ok u =>
        have hhost : parsedHost (String.mk l) = hostnameOf u.netloc := by
          unfold parsedHost
          rw [show (String.mk l).data = l from rfl, hp]
        rw [hhost] at hyb hyc
        simp only [hyb, hyc]
        simp
  · refine ⟨by decide, by decide, by decide, by decide, by decide⟩
  · decide

/-- Counterexample to C4 as stated: a `shorts` URL whose expected path
segment is empty (a missing expected component) does not yield `None` —
the code returns the empty string. -/
theorem C4_empty_shorts_not_none :
    extract_video_id "https://www.youtube.com/shorts/" = some "" ∧
    (some "" : Option String) ≠ none := ⟨by decide, by decide⟩

/-- Witness for `C4_extract_video_id` at concrete inputs: a bare token,
the three URL shapes around a real video id, and a foreign-host URL. -/
theorem C4_extract_video_id_witness :
    extract_video_id "dQw4w9WgXcQ" = some "dQw4w9WgXcQ" ∧
    extract_video_id "https://www.youtube.com/watch?v=dQw4w9WgXcQ" =
      some "dQw4w9WgXcQ" ∧
    extract_video_id "https://youtu.be/dQw4w9WgXcQ" = some "dQw4w9WgXcQ" ∧
    extract_video_id "https://www.youtube.com/shorts/dQw4w9WgXcQ" =
      some "dQw4w9WgXcQ" ∧
    extract_video_id "https://vimeo.com/12345678" = none :=
  ⟨C4_extract_video_id.1 "dQw4w9WgXcQ" (by decide) (by decide),
   (C4_extract_video_id.2.1 "dQw4w9WgXcQ" (by decide)).1,
   (C4_extract_video_id.2.1 "dQw4w9WgXcQ" (by decide)).2.1,
   (C4_extract_video_id.2.1 "dQw4w9WgXcQ" (by decide)).2.2,
   C4_extract_video_id.2.2.1 "https://vimeo.com/12345678"
     (Or.inr (Or.inl (by decide))) (by decide) (by decide)⟩

end ShortsDigest
